import Mathlib

/-!
Verification of the transport-connection layer of the septentrio_gnss_driver
repository (file `src/include/septentrio_gnss_driver/communication/io.hpp`).

The development shallowly embeds the three pieces of control flow that the
claims are about:

* the global `baudrates` table (io.hpp lines 46-49);
* `SerialIo::setBaurate` (io.hpp lines 178-269): the baud-rate negotiation
  loop, modelled as a structurally recursive function over the table, driven
  by an abstract serial-handle state machine `Handle` whose `get_option` /
  `set_option` calls may fail (a `none` result models a thrown
  `boost::system::system_error`);
* `SerialIo::connect` (io.hpp lines 107-176): close-if-open, the unbounded
  open-retry loop (modelled with explicit fuel, since the C++ loop has no
  bound), the termios/ioctl line-configuration calls whose integer return
  codes the source never inspects, and the final call to `setBaurate`;
* `TcpIo` (io.hpp lines 65-93): resolution in the constructor and the
  retry-free `connect`.

Every run also produces an event trace so that claims about the *sequence*
of operations (which rates were passed to `set_option`, what happens after a
failure, how often an open is attempted) can be stated and proved.
-/

namespace Septentrio

/-- Possible baudrates for the Rx: the fixed 21-entry ascending table from
io.hpp lines 46-49 (`const static std::array<uint32_t, 21> baudrates`). -/
def baudrates : List Nat :=
  [1200, 2400, 4800, 9600, 19200, 38400, 57600,
   115200, 230400, 460800, 500000, 576000, 921600, 1000000,
   1152000, 1500000, 2000000, 2500000, 3000000, 3500000, 4000000]

/-- Events observable during a run of `SerialIo::setBaurate`.
`setCall r` records that `serial_port_base::baud_rate(r)` was passed to
`set_option`; `setFail` / `getFail` record that the corresponding call threw
`boost::system::system_error`; `getOk r` records a successful `get_option`
returning rate `r`; `logError` stands for the ERROR + INFO log pair emitted
in each catch block of the source. -/
inductive Ev where
  | setCall (r : Nat) : Ev
  | setFail : Ev
  | getOk (r : Nat) : Ev
  | getFail : Ev
  | logError : Ev
deriving DecidableEq

/-- Outcome of `SerialIo::setBaurate`. `earlyFail` is an explicit
`return false` from one of the catch blocks. `fellThrough final` models
control flow reaching the end of the function body: the C++ function is
declared `[[nodiscard]] bool` but has **no return statement** on that path
(io.hpp line 269), so the returned value is undefined; `final` is the last
observed `current_baudrate.value()` that the closing log statement prints. -/
inductive BaudOutcome where
  | earlyFail : BaudOutcome
  | fellThrough (final : Nat) : BaudOutcome
deriving DecidableEq

/-- Abstract serial handle: a state machine over state type `σ`.
`doGet` models `serial_port_.get_option(current_baudrate)` and `doSet r`
models `serial_port_.set_option(baud_rate(r))`; a `none` result models the
call throwing `boost::system::system_error`. -/
structure Handle (σ : Type) where
  doGet : σ → Option (Nat × σ)
  doSet : Nat → σ → Option σ

/-- Result of a run of the negotiation: the outcome, the event trace, and
the number of `for`-loop iterations that were entered. -/
structure LoopRes where
  outcome : BaudOutcome
  trace : List Ev
  iters : Nat
deriving DecidableEq

/-- The `for (uint8_t i = 0; i < baudrates.size(); i++)` loop of
`SerialIo::setBaurate` (io.hpp lines 215-265), recursing over the list of
remaining table entries. Per iteration, in source order: break when
`current_baudrate.value() == baudrate_`; `continue` when
`current_baudrate.value() >= baudrates[i] && baudrate_ > baudrates[i]`;
otherwise `set_option(baudrates[i])` (catch: log, `return false`), sleep
500 ms, `get_option` (catch: log, `return false`), log the new rate. -/
def negoLoop {σ : Type} (h : Handle σ) (target : Nat) :
    List Nat → Nat → σ → LoopRes
  | [], current, _ => ⟨.fellThrough current, [], 0⟩
  | b :: rest, current, s =>
    if current = target then ⟨.fellThrough current, [], 1⟩
    else if b ≤ current ∧ b < target then
      let r := negoLoop h target rest current s
      ⟨r.outcome, r.trace, r.iters + 1⟩
    else
      match h.doSet b s with
      | none => ⟨.earlyFail, [.setCall b, .setFail, .logError], 1⟩
      | some s' =>
        match h.doGet s' with
        | none => ⟨.earlyFail, [.setCall b, .getFail, .logError], 1⟩
        | some (c', s'') =>
          let r := negoLoop h target rest c' s''
          ⟨r.outcome, .setCall b :: .getOk c' :: r.trace, r.iters + 1⟩

/-- `SerialIo::setBaurate` (io.hpp lines 178-269): an initial `get_option`
(catch: log, `return false`), then the negotiation loop over the whole
`baudrates` table, then the closing log with no return statement. -/
def setBaurate {σ : Type} (h : Handle σ) (target : Nat) (s : σ) : LoopRes :=
  match h.doGet s with
  | none => ⟨.earlyFail, [.getFail, .logError], 0⟩
  | some (c, s') =>
    let r := negoLoop h target baudrates c s'
    ⟨r.outcome, .getOk c :: r.trace, r.iters⟩

/-- Simulated handle whose readback always reflects the last set value:
the state is the current rate, `get_option` returns it, `set_option r`
replaces it by `r`; no call ever fails. -/
def faithful : Handle Nat :=
  ⟨fun s => some (s, s), fun r _ => some r⟩

/-- Handle whose readback is stuck at rate `0` (never the target) and whose
calls never fail: used to drive the loop through the entire table. -/
def stuckHandle : Handle Unit :=
  ⟨fun _ => some (0, ()), fun _ _ => some ()⟩

/-- Handle whose `get_option` succeeds (readback mirrors the state, as in
`faithful`) but whose `set_option` always throws. -/
def setFailHandle : Handle Nat :=
  ⟨fun s => some (s, s), fun _ _ => none⟩

/-- The rates passed to `set_option` during a trace, in order. -/
def setsOf : List Ev → List Nat
  | [] => []
  | .setCall r :: ts => r :: setsOf ts
  | _ :: ts => setsOf ts

theorem negoLoop_at_target {σ : Type} (h : Handle σ) (target : Nat)
    (l : List Nat) (s : σ) :
    (negoLoop h target l target s).outcome = .fellThrough target := by
  cases l with
  | nil => rfl
  | cons b rest => simp [negoLoop]

theorem negoLoop_faithful_mem (target : Nat) :
    ∀ l : List Nat, target ∈ l → ∀ c : Nat,
      (negoLoop faithful target l c c).outcome = .fellThrough target := by
  intro l
  induction l with
  | nil => intro hmem; cases hmem
  | cons b rest ih =>
    intro hmem c
    by_cases hc : c = target
    · rw [hc]
      exact negoLoop_at_target faithful target (b :: rest) target
    · rcases List.mem_cons.mp hmem with hb | hrest
      · have hskip : ¬(b ≤ c ∧ b < target) := by omega
        simp only [negoLoop, if_neg hc, if_neg hskip, faithful]
        rw [hb]
        exact negoLoop_at_target faithful b rest b
      · by_cases hskip : b ≤ c ∧ b < target
        · simp only [negoLoop, if_neg hc, if_pos hskip]
          exact ih hrest c
        · simp only [negoLoop, if_neg hc, if_neg hskip, faithful]
          exact ih hrest b

theorem setsOf_negoLoop_sublist {σ : Type} (h : Handle σ) (target : Nat) :
    ∀ (l : List Nat) (c : Nat) (s : σ),
      (setsOf (negoLoop h target l c s).trace).Sublist l := by
  intro l
  induction l with
  | nil => intro c s; simp [negoLoop, setsOf]
  | cons b rest ih =>
    intro c s
    by_cases hc : c = target
    · simp [negoLoop, if_pos hc, setsOf]
    · by_cases hskip : b ≤ c ∧ b < target
      · simp only [negoLoop, if_neg hc, if_pos hskip]
        exact (ih c s).cons b
      · simp only [negoLoop, if_neg hc, if_neg hskip]
        cases hset : h.doSet b s with
        | none => simp [setsOf]
        | some s' =>
          cases hget : h.doGet s' with
          | none => simp [hget, setsOf]
          | some cs =>
            obtain ⟨c', s''⟩ := cs
            simpa [hget, setsOf] using (ih c' s'').cons₂ b

theorem baudrates_chain : List.Chain' (· < ·) baudrates :=
  List.chain'_iff_pairwise.mpr (by decide)

theorem setsOf_setBaurate_sublist {σ : Type} (h : Handle σ) (target : Nat)
    (s : σ) : (setsOf (setBaurate h target s).trace).Sublist baudrates := by
  unfold setBaurate
  cases hget : h.doGet s with
  | none => simp [setsOf]
  | some cs =>
    obtain ⟨c, s'⟩ := cs
    simpa [setsOf] using setsOf_negoLoop_sublist h target baudrates c s'

/-- C1: for every target rate in the table and every initial current rate,
negotiation against a handle whose readback always reflects the last set
value terminates with the observed current rate equal to the target, and
the rates it sets along the way are strictly increasing (ascending
traversal of the table). -/
theorem setBaurate_faithful_reaches_target (target current : Nat)
    (htarget : target ∈ baudrates) :
    (setBaurate faithful target current).outcome = .fellThrough target ∧
      List.Chain' (· < ·) (setsOf (setBaurate faithful target current).trace) := by
  constructor
  · show (setBaurate faithful target current).outcome = _
    unfold setBaurate
    simpa [faithful] using negoLoop_faithful_mem target baudrates htarget current
  · exact baudrates_chain.sublist
      (setsOf_setBaurate_sublist faithful target current)

/-- Concrete instantiation of the C1 theorem: target 4800, initial current
rate 230400 (higher than the target). -/
theorem setBaurate_faithful_reaches_target_witness :
    (setBaurate faithful 4800 230400).outcome = .fellThrough 4800 ∧
      List.Chain' (· < ·) (setsOf (setBaurate faithful 4800 230400).trace) :=
  setBaurate_faithful_reaches_target 4800 230400 (by decide)

/-- C2 counterexample: in the scenario target = 115200, simulated current
rate = 9600, the rate 9600 itself is never passed to `set_option` — the
loop's `continue` branch skips it because the current rate already equals
it — so the set-attempt sequence does not include the claimed subsequence
starting with 9600. -/
theorem nego_115200_from_9600_no_9600_set :
    9600 ∉ setsOf (setBaurate faithful 115200 9600).trace ∧
      setsOf (setBaurate faithful 115200 9600).trace
        = [19200, 38400, 57600, 115200] := by decide

/-- C2 (amended): with target 115200 and simulated current rate 9600 on a
faithful handle, the sequence of set-attempts is exactly 19200, 38400,
57600, 115200 — the ascending table subsequence strictly above 9600 up to
the target — and the loop ends with the current rate equal to 115200. -/
theorem nego_115200_from_9600_sets :
    setsOf (setBaurate faithful 115200 9600).trace
        = [19200, 38400, 57600, 115200] ∧
      (setBaurate faithful 115200 9600).outcome = .fellThrough 115200 := by
  decide

/-- C3 (evaluation of the code at the failing input): with a handle whose
readback is stuck at rate 0 — never equal to the target 115200 — the loop
exhausts all 21 table entries and control falls through the end of
`setBaurate`, which has no return statement on that path: the outcome is
`fellThrough 0` (an undefined return value in the C++ source), not the
explicit failure `earlyFail` that the claim requires. -/
theorem nego_exhaustion_falls_through :
    (setBaurate stuckHandle 115200 ()).outcome = .fellThrough 0 ∧
      (setBaurate stuckHandle 115200 ()).iters = 21 ∧
      (setBaurate stuckHandle 115200 ()).outcome ≠ .earlyFail := by decide

theorem negoLoop_failure_aborts {σ : Type} (h : Handle σ) (target : Nat) :
    ∀ (l : List Nat) (c : Nat) (s : σ) (pre post : List Ev) (e : Ev),
      e = .setFail ∨ e = .getFail →
      (negoLoop h target l c s).trace = pre ++ e :: post →
      (negoLoop h target l c s).outcome = .earlyFail ∧ post = [.logError] := by
  intro l
  induction l with
  | nil =>
    intro c s pre post e he htr
    simp [negoLoop] at htr
  | cons b rest ih =>
    intro c s pre post e he htr
    by_cases hc : c = target
    · simp [negoLoop, if_pos hc] at htr
    · by_cases hskip : b ≤ c ∧ b < target
      · simp only [negoLoop, if_neg hc, if_pos hskip] at htr ⊢
        exact ih c s pre post e he htr
      · simp only [negoLoop, if_neg hc, if_neg hskip] at htr ⊢
        cases hset : h.doSet b s with
        | none =>
          clear ih
          simp only [hset] at htr ⊢
          rcases he with rfl | rfl <;>
            rcases pre with _ | ⟨p1, _ | ⟨p2, _ | ⟨p3, pre'⟩⟩⟩ <;> simp_all
        | some s' =>
          cases hget : h.doGet s' with
          | none =>
            clear ih
            simp only [hset, hget] at htr ⊢
            rcases he with rfl | rfl <;>
              rcases pre with _ | ⟨p1, _ | ⟨p2, _ | ⟨p3, pre'⟩⟩⟩ <;> simp_all
          | some cs =>
            obtain ⟨c', s''⟩ := cs
            simp only [hset, hget] at htr ⊢
            rcases pre with _ | ⟨p1, _ | ⟨p2, pre'⟩⟩
            · clear ih; rcases he with rfl | rfl <;> simp_all
            · clear ih; rcases he with rfl | rfl <;> simp_all
            · simp only [List.cons_append, List.cons.injEq] at htr
              exact ih c' s'' pre' post e he htr.2.2

/-- C4: if any `set_option` or `get_option` call against the handle fails
during negotiation (the initial rate read included), `setBaurate` aborts
with the explicit failure `return false`, the catch block logs the error,
and nothing follows the failure in the trace but that log — in particular
the failed operation is never retried. -/
theorem setBaurate_failure_aborts {σ : Type} (h : Handle σ) (target : Nat)
    (s : σ) (pre post : List Ev) (e : Ev)
    (he : e = .setFail ∨ e = .getFail)
    (htr : (setBaurate h target s).trace = pre ++ e :: post) :
    (setBaurate h target s).outcome = .earlyFail ∧ post = [.logError] := by
  unfold setBaurate at htr ⊢
  cases hget : h.doGet s with
  | none =>
    simp only [hget] at htr ⊢
    rcases he with rfl | rfl <;>
      rcases pre with _ | ⟨p1, _ | ⟨p2, pre'⟩⟩ <;> simp_all
  | some cs =>
    obtain ⟨c, s'⟩ := cs
    simp only [hget] at htr ⊢
    rcases pre with _ | ⟨p1, pre'⟩
    · rcases he with rfl | rfl <;> simp_all
    · simp only [List.cons_append, List.cons.injEq] at htr
      exact negoLoop_failure_aborts h target baudrates c s' pre' post e he htr.2

/-- Concrete instantiation of the C4 theorem: a handle whose `set_option`
always throws fails on the first set attempt (rate 19200) and the run ends
right after the logged error with outcome `earlyFail`. -/
theorem setBaurate_failure_aborts_witness :
    (setBaurate setFailHandle 115200 9600).outcome = .earlyFail ∧
      ([Ev.logError] : List Ev) = [Ev.logError] :=
  setBaurate_failure_aborts setFailHandle 115200 9600
    [.getOk 9600, .setCall 19200] [.logError] .setFail (Or.inl rfl) (by decide)

theorem negoLoop_iters_le {σ : Type} (h : Handle σ) (target : Nat) :
    ∀ (l : List Nat) (c : Nat) (s : σ),
      (negoLoop h target l c s).iters ≤ l.length := by
  intro l
  induction l with
  | nil => intro c s; simp [negoLoop]
  | cons b rest ih =>
    intro c s
    by_cases hc : c = target
    · simp [negoLoop, if_pos hc]
    · by_cases hskip : b ≤ c ∧ b < target
      · simp only [negoLoop, if_neg hc, if_pos hskip, List.length_cons]
        exact Nat.succ_le_succ (ih c s)
      · simp only [negoLoop, if_neg hc, if_neg hskip, List.length_cons]
        cases hset : h.doSet b s with
        | none => simp [hset]
        | some s' =>
          cases hget : h.doGet s' with
          | none => simp [hget]
          | some cs =>
            obtain ⟨c', s''⟩ := cs
            simpa [hget] using Nat.succ_le_succ (ih c' s'')

/-- C9: for every handle behavior — any readback values, any failures —
the negotiation loop enters at most 21 iterations, the length of the baud
rate table, and therefore always terminates even when the readback never
equals the target. -/
theorem setBaurate_iters_bounded {σ : Type} (h : Handle σ) (target : Nat)
    (s : σ) :
    (setBaurate h target s).iters ≤ 21 ∧ baudrates.length = 21 := by
  refine ⟨?_, by decide⟩
  unfold setBaurate
  cases hget : h.doGet s with
  | none => simp
  | some cs =>
    obtain ⟨c, s'⟩ := cs
    simpa using (negoLoop_iters_le h target baudrates c s').trans (by decide)

/-- C10: every rate the negotiator passes to `set_option` is a member of
the fixed 21-entry table, and within a single run the successively set
rates are strictly increasing. -/
theorem setBaurate_sets_in_table_increasing {σ : Type} (h : Handle σ)
    (target : Nat) (s : σ) :
    (∀ r ∈ setsOf (setBaurate h target s).trace, r ∈ baudrates) ∧
      List.Chain' (· < ·) (setsOf (setBaurate h target s).trace) := by
  have hsub := setsOf_setBaurate_sublist h target s
  exact ⟨fun r hr => hsub.subset hr, baudrates_chain.sublist hsub⟩

/-- Concrete instantiation of the C10 theorem: in the run with target 57600
from current rate 1200, the set rate 2400 is in the table and the whole set
sequence is strictly increasing. -/
theorem setBaurate_sets_in_table_increasing_witness :
    2400 ∈ baudrates ∧
      List.Chain' (· < ·) (setsOf (setBaurate faithful 57600 1200).trace) :=
  ⟨(setBaurate_sets_in_table_increasing faithful 57600 1200).1 2400 (by decide),
   (setBaurate_sets_in_table_increasing faithful 57600 1200).2⟩

/-- Events observable during a run of `SerialIo::connect` (io.hpp lines
107-176). `closeEv` is the initial `serialPort_.close()` when the port is
already open; `openAttempt` is a call to `serialPort_.open(port_)`;
`logOpenError` is the ERROR log in the catch block; `sleep1s` is the fixed
one-second backoff; the `...Ret ok` events record the integer return codes
of `tcgetattr`, `tcsetattr`, `ioctl(TIOCGSERIAL)` and `ioctl(TIOCSSERIAL)`
(`false` models a failing return) — the source never inspects these codes;
`negoStart` marks the final tail call `return setBaudrate()`. -/
inductive SEv where
  | closeEv : SEv
  | openAttempt : SEv
  | logOpenError : SEv
  | sleep1s : SEv
  | tcgetattrRet (ok : Bool) : SEv
  | tcsetattrRet (ok : Bool) : SEv
  | ioctlGetRet (ok : Bool) : SEv
  | ioctlSetRet (ok : Bool) : SEv
  | negoStart : SEv
deriving DecidableEq

/-- Success (`true`) or failure of each of the four line-configuration
calls whose return codes the source ignores. -/
structure LineCfg where
  tcgetattrOk : Bool
  tcsetattrOk : Bool
  ioctlGetOk : Bool
  ioctlSetOk : Bool
deriving DecidableEq

/-- The trace of the termios / ioctl block of `SerialIo::connect`
(io.hpp lines 145-173): the four calls are made in order and their return
codes are recorded but never branched on. -/
def lineCfgTrace (cfg : LineCfg) : List SEv :=
  [.tcgetattrRet cfg.tcgetattrOk, .tcsetattrRet cfg.tcsetattrOk,
   .ioctlGetRet cfg.ioctlGetOk, .ioctlSetRet cfg.ioctlSetOk]

/-- Result of a run of `SerialIo::connect`. `stillWaiting` means the
unbounded `while (!opened)` loop is still retrying when the explicit fuel
runs out — the loop itself has no exit other than a successful open.
`proceeded b` means an open succeeded and control reached
`return setBaudrate()`, whose outcome is `b`. -/
inductive ConnectResult where
  | stillWaiting : ConnectResult
  | proceeded (nego : BaudOutcome) : ConnectResult
deriving DecidableEq

/-- Result and event trace of a run of `SerialIo::connect`. -/
structure ConnectRun where
  result : ConnectResult
  strace : List SEv
deriving DecidableEq

/-- The `while (!opened)` loop of `SerialIo::connect` (io.hpp lines
116-132). `attempts k` tells whether the `k`-th call to
`serialPort_.open(port_)` succeeds (`false` models a thrown
`boost::system::system_error`); on failure the source logs at ERROR and
sleeps one second, then retries. The C++ loop is unbounded and checks no
cancellation condition, so the recursion is over explicit fuel; `none`
means the fuel ran out with the loop still spinning. -/
def openLoop (attempts : Nat → Bool) : Nat → Nat → Option Nat × List SEv
  | 0, _ => (none, [])
  | fuel + 1, k =>
    if attempts k then (some k, [.openAttempt])
    else
      let r := openLoop attempts fuel (k + 1)
      (r.1, .openAttempt :: .logOpenError :: .sleep1s :: r.2)

/-- `SerialIo::connect` (io.hpp lines 107-176): close the port if it is
already open, run the open-retry loop, apply the serial options and the
termios/ioctl line configuration — whose return codes are ignored — and
tail-call `setBaudrate`. -/
def serialConnect {σ : Type} (isOpen : Bool) (attempts : Nat → Bool)
    (fuel : Nat) (cfg : LineCfg) (h : Handle σ) (target : Nat) (s : σ) :
    ConnectRun :=
  match (openLoop attempts fuel 0).1 with
  | none =>
    ⟨.stillWaiting,
     (if isOpen then [SEv.closeEv] else []) ++ (openLoop attempts fuel 0).2⟩
  | some _ =>
    ⟨.proceeded (setBaurate h target s).outcome,
     (if isOpen then [SEv.closeEv] else []) ++ (openLoop attempts fuel 0).2
       ++ lineCfgTrace cfg ++ [.negoStart]⟩

/-- Expected open-phase trace when the first `n` open attempts fail and the
next one succeeds: `n` blocks of attempt / ERROR log / one-second sleep,
then the successful attempt. -/
def failPattern : Nat → List SEv
  | 0 => [.openAttempt]
  | n + 1 => .openAttempt :: .logOpenError :: .sleep1s :: failPattern n

theorem openLoop_succ_true (attempts : Nat → Bool) (fuel k : Nat)
    (h : attempts k = true) :
    openLoop attempts (fuel + 1) k = (some k, [.openAttempt]) := by
  simp [openLoop, h]

theorem openLoop_succ_false (attempts : Nat → Bool) (fuel k : Nat)
    (h : attempts k = false) :
    openLoop attempts (fuel + 1) k
      = ((openLoop attempts fuel (k + 1)).1,
         .openAttempt :: .logOpenError :: .sleep1s ::
           (openLoop attempts fuel (k + 1)).2) := by
  simp [openLoop, h]

theorem openLoop_first_success (attempts : Nat → Bool) :
    ∀ n k0 : Nat, (∀ j, j < n → attempts (k0 + j) = false) →
      attempts (k0 + n) = true →
      openLoop attempts (n + 1) k0 = (some (k0 + n), failPattern n) := by
  intro n
  induction n with
  | zero =>
    intro k0 _ hsucc
    rw [openLoop_succ_true attempts 0 k0 (by simpa using hsucc)]
    rfl
  | succ n ih =>
    intro k0 hfail hsucc
    have h0 : attempts k0 = false := by simpa using hfail 0 (Nat.succ_pos n)
    have hk : k0 + 1 + n = k0 + (n + 1) := by omega
    have ih' := ih (k0 + 1)
      (fun j hj => by
        have := hfail (j + 1) (Nat.succ_lt_succ hj)
        simpa [Nat.add_assoc, Nat.add_comm 1 j] using this)
      (by rw [hk]; exact hsucc)
    rw [openLoop_succ_false attempts (n + 1) k0 h0, ih', hk]
    rfl

theorem openLoop_all_fail (attempts : Nat → Bool)
    (hfail : ∀ k, attempts k = false) :
    ∀ fuel k0 : Nat, (openLoop attempts fuel k0).1 = none := by
  intro fuel
  induction fuel with
  | zero => intro k0; rfl
  | succ fuel ih =>
    intro k0
    simp only [openLoop, hfail k0, Bool.false_eq_true, if_false]
    exact ih (k0 + 1)

/-- C5: `SerialIo::connect` first closes a previously open handle; every
failed open attempt is followed by an ERROR log, the fixed one-second
backoff, and another attempt; this holds for every number `n` of initial
failures — there is no maximum attempt count — and when no attempt ever
succeeds the loop is still retrying when any amount of fuel runs out. -/
theorem serialConnect_open_phase {σ : Type} (isOpen : Bool)
    (attempts : Nat → Bool) (n fuel : Nat) (cfg : LineCfg) (h : Handle σ)
    (target : Nat) (s : σ) :
    ((∀ j, j < n → attempts j = false) → attempts n = true →
      serialConnect isOpen attempts (n + 1) cfg h target s =
        ⟨.proceeded (setBaurate h target s).outcome,
         (if isOpen then [SEv.closeEv] else []) ++ failPattern n ++
           lineCfgTrace cfg ++ [SEv.negoStart]⟩) ∧
    ((∀ k, attempts k = false) →
      serialConnect isOpen attempts fuel cfg h target s =
        ⟨.stillWaiting,
         (if isOpen then [SEv.closeEv] else []) ++
           (openLoop attempts fuel 0).2⟩) := by
  constructor
  · intro hfail hsucc
    have hol := openLoop_first_success attempts n 0
      (fun j hj => by simpa using hfail j hj) (by simpa using hsucc)
    unfold serialConnect
    rw [hol]
  · intro hall
    have h1 := openLoop_all_fail attempts hall fuel 0
    unfold serialConnect
    rw [h1]

/-- Concrete instantiation of the C5 theorem at both conjuncts: two failed
attempts then a success on attempt 2 (with the close-first event and the
two log/sleep blocks in the trace), and a device that never appears with
the loop still waiting after fuel 5. -/
theorem serialConnect_open_phase_witness :
    (serialConnect true (fun k => k == 2) 3 ⟨true, true, true, true⟩
        faithful 9600 9600 =
      ⟨.proceeded (setBaurate faithful 9600 9600).outcome,
       (if true then [SEv.closeEv] else []) ++ failPattern 2 ++
         lineCfgTrace ⟨true, true, true, true⟩ ++ [SEv.negoStart]⟩) ∧
    (serialConnect true (fun _ => false) 5 ⟨true, true, true, true⟩
        faithful 9600 9600 =
      ⟨.stillWaiting,
       (if true then [SEv.closeEv] else []) ++
         (openLoop (fun _ => false) 5 0).2⟩) :=
  ⟨(serialConnect_open_phase true (fun k => k == 2) 2 3
      ⟨true, true, true, true⟩ faithful 9600 9600).1 (by decide) (by decide),
   (serialConnect_open_phase true (fun _ => false) 2 5
      ⟨true, true, true, true⟩ faithful 9600 9600).2 (fun _ => rfl)⟩

/-- C6 (evaluation of the code at the failing input): the open-retry loop
of `SerialIo::connect`, as embedded from the source, takes no cancellation
input at all and exits only through a successful open. With a device that
never opens it is still retrying after any number of iterations: for every
fuel the result is `none` and the trace is exactly `fuel` complete
attempt / ERROR-log / one-second-sleep blocks, so no cancellation is ever
consulted at an iteration boundary. -/
theorem openLoop_never_exits_without_open (fuel k : Nat) :
    (openLoop (fun _ => false) fuel k).1 = none ∧
      (openLoop (fun _ => false) fuel k).2.length = 3 * fuel := by
  induction fuel generalizing k with
  | zero => exact ⟨rfl, rfl⟩
  | succ fuel ih =>
    rw [openLoop_succ_false (fun _ => false) fuel k rfl]
    refine ⟨(ih (k + 1)).1, ?_⟩
    simp only [List.length_cons, (ih (k + 1)).2]
    omega

/-- C8 (evaluation of the code at the failing input): all four
line-configuration calls — `tcgetattr`, `tcsetattr` and the two `ioctl`s —
return failure, yet `connect` still proceeds to the baud-rate negotiation:
the source never inspects those return codes, so a line-configuration
failure can never make `connect` fail. -/
theorem serialConnect_ignores_lineconfig_failures :
    (serialConnect true (fun _ => true) 1 ⟨false, false, false, false⟩
        faithful 115200 9600).result
      = .proceeded (.fellThrough 115200) ∧
      SEv.tcgetattrRet false ∈
        (serialConnect true (fun _ => true) 1 ⟨false, false, false, false⟩
          faithful 115200 9600).strace := by decide

/-- Events of a `TcpIo` run: the resolver call made in the constructor
(io.hpp lines 73-75), the single `socket_.connect` call, and the
`no_delay(true)` option set in `connect` (io.hpp lines 80-87). -/
inductive TcpEv where
  | resolveCall : TcpEv
  | connectCall : TcpEv
  | noDelaySet : TcpEv
deriving DecidableEq, BEq

/-- Outcome of constructing a `TcpIo` and calling `connect` once.
`threwResolve` / `threwConnect` model the uncaught
`boost::system::system_error` propagating out of the resolver call or the
socket-connect call; `fellThroughEnd` models the success path reaching the
end of the `[[nodiscard]] bool connect()` body, which has no return
statement (io.hpp line 87). -/
inductive TcpOutcome where
  | threwResolve : TcpOutcome
  | threwConnect : TcpOutcome
  | fellThroughEnd : TcpOutcome
deriving DecidableEq

/-- `TcpIo` construction followed by `connect` (io.hpp lines 65-93):
resolution happens once in the constructor, then `connect` resets the
socket, connects to the first resolved endpoint and sets `no_delay`.
Neither call is wrapped in a try/catch and there is no loop, so a failure
(`resolveOk = false` or `connectOk = false`) propagates immediately. -/
def tcpConnectRun (resolveOk connectOk : Bool) : TcpOutcome × List TcpEv :=
  if resolveOk then
    if connectOk then
      (.fellThroughEnd, [.resolveCall, .connectCall, .noDelaySet])
    else (.threwConnect, [.resolveCall, .connectCall])
  else (.threwResolve, [.resolveCall])

/-- C7: any resolution or socket-connect failure surfaces immediately as a
thrown error, with at most one socket-connect attempt — zero retries — and
exactly one resolution attempt. -/
theorem tcpConnect_fail_no_retry (resolveOk connectOk : Bool)
    (hfail : resolveOk = false ∨ connectOk = false) :
    ((tcpConnectRun resolveOk connectOk).1 = .threwResolve ∨
      (tcpConnectRun resolveOk connectOk).1 = .threwConnect) ∧
      (tcpConnectRun resolveOk connectOk).2.count .connectCall ≤ 1 ∧
      (tcpConnectRun resolveOk connectOk).2.count .resolveCall = 1 := by
  cases resolveOk <;> cases connectOk <;>
    first
      | exact absurd hfail (by decide)
      | exact ⟨by decide, by decide, by decide⟩

/-- Concrete instantiation of the C7 theorem: resolution succeeds and the
socket connect fails. -/
theorem tcpConnect_fail_no_retry_witness :
    ((tcpConnectRun true false).1 = .threwResolve ∨
      (tcpConnectRun true false).1 = .threwConnect) ∧
      (tcpConnectRun true false).2.count .connectCall ≤ 1 ∧
      (tcpConnectRun true false).2.count .resolveCall = 1 :=
  tcpConnect_fail_no_retry true false (Or.inr rfl)

example :
    setsOf (setBaurate faithful 115200 9600).trace
      = [19200, 38400, 57600, 115200] := by decide

example :
    (setBaurate faithful 115200 9600).outcome = .fellThrough 115200 := by
  decide

example : (setBaurate faithful 4800 230400).outcome = .fellThrough 4800 := by
  decide

example : (setBaurate stuckHandle 115200 ()).outcome = .fellThrough 0 := by
  decide

end Septentrio
